import Mathlib

/-
Shallow embedding of the synther keyframe-animation / effect core
(src/Types.h, src/Variant.h, src/KeyFrame.h, src/KeyFrame.cpp,
src/Utils.cpp, src/Effects.cpp).

Modelling conventions:
* C++ `double` is modelled as `ℝ`; `bigint_t` (long long) as `Int`;
  `uint16_t` samples as `Nat` together with explicit `% 65536` wrapping and a
  two's-complement signed reinterpretation (`toInt16` / `toUInt16`).
* `std::map` is modelled as a key-sorted association list.  `emplace` keeps
  the existing entry when the key is already present, exactly as in C++.
* Callback-driven emission (`processorFunc`) is purified: the emitted
  `(time, value)` pairs are returned as a list in emission order.
* The C++ `for (time = start; time < end; time += iterationMS)` loop is a
  well-founded recursion; the extra `0 < iterationMS` guard only cuts the
  cases where the C++ loop would not terminate.
-/

set_option linter.unusedVariables false

noncomputable section

/-- Types.h: `typedef long long bigint_t`. -/
abbrev bigint : Type := Int

/-- Types.h: `constexpr double PI = 3.14159265359` (a rational constant, not π). -/
def PI : ℝ := 3.14159265359

/-- Types.h: `constexpr double WAV_SAMPLE_RATE_HZ = 44100.0`. -/
def WAV_SAMPLE_RATE_HZ : ℝ := 44100

/-- Types.h: `constexpr double SAMPLE_MS = 1000.0 / WAV_SAMPLE_RATE_HZ`. -/
def SAMPLE_MS : ℝ := 1000 / 44100

/-- Types.h: `constexpr double AMP_MAX = 32767.0`. -/
def AMP_MAX : ℝ := 32767

/-- Variant.h: `enum class ValueType`. -/
inductive ValueType where
  | BOOLEAN
  | BIG_INTEGER
  | DOUBLE
deriving DecidableEq

/-- Variant.h: `class VariantNumeric`, a tagged union over bool / bigint_t / double. -/
inductive VariantNumeric where
  | ofBool (b : Bool)
  | ofBigInt (i : bigint)
  | ofDouble (d : ℝ)

/-- Variant.h: `get_type()`. -/
def VariantNumeric.get_type : VariantNumeric → ValueType
  | .ofBool _ => .BOOLEAN
  | .ofBigInt _ => .BIG_INTEGER
  | .ofDouble _ => .DOUBLE

/-- Variant.h: `as_boolean()`.  Reading a mismatched union member is undefined
behaviour in the source; the fallback value is never exercised by
kind-homogeneous channels. -/
def VariantNumeric.as_boolean : VariantNumeric → Bool
  | .ofBool b => b
  | _ => false

/-- Variant.h: `as_big_integer()` (mismatched access: see `as_boolean`). -/
def VariantNumeric.as_big_integer : VariantNumeric → bigint
  | .ofBigInt i => i
  | _ => 0

/-- Variant.h: `as_double()` (mismatched access: see `as_boolean`). -/
def VariantNumeric.as_double : VariantNumeric → ℝ
  | .ofDouble d => d
  | _ => 0

/-- KeyFrame.h: `enum class KeyFrameInterpolationType`. -/
inductive KeyFrameInterpolationType where
  | Constant
  | Linear
  | Cubic
  | Cosine
  | Exponential
deriving DecidableEq

/-- KeyFrame.h: `struct KeyFrame`. -/
structure KeyFrame where
  mChannel : Int
  mTimeMS : ℝ
  mInterpolation : KeyFrameInterpolationType
  mValue : VariantNumeric

instance : Inhabited KeyFrame := ⟨⟨0, 0, .Constant, .ofBool false⟩⟩

/-- `std::map::find`: look up a key in an association list. -/
def alFind? {K V : Type} [DecidableEq K] (k : K) : List (K × V) → Option V
  | [] => none
  | e :: rest => if e.1 = k then some e.2 else alFind? k rest

/-- `std::map::emplace` on a key-sorted association list: insert at the sorted
position if the key is absent, otherwise KEEP the existing entry (emplace does
not overwrite). -/
def alEmplace {K V : Type} [LinearOrder K] (k : K) (v : V) : List (K × V) → List (K × V)
  | [] => [(k, v)]
  | e :: rest =>
    if k < e.1 then (k, v) :: e :: rest
    else if k = e.1 then e :: rest
    else e :: alEmplace k v rest

/-- In-place mutation of the mapped value of the (first) entry with key `k`
(models `it->second.emplace(...)` through a found iterator). -/
def alUpdate {K V : Type} [DecidableEq K] (k : K) (f : V → V) : List (K × V) → List (K × V)
  | [] => []
  | e :: rest => if e.1 = k then (e.1, f e.2) :: rest else e :: alUpdate k f rest

/-- KeyFrame.h: one channel's `std::map<double, KeyFrame>`, time-sorted. -/
abbrev Timeline : Type := List (ℝ × KeyFrame)

/-- KeyFrame.h: `Animation = std::map<unsigned int, std::map<double, KeyFrame>>`,
channel-sorted.  Channel ids are modelled as `Int` (the C++ `int`/`unsigned int`
conversions are the identity on the non-negative ids used by the pipeline). -/
abbrev Animation : Type := List (Int × Timeline)

/-- KeyFrame.h: `ChannelValueMap = std::map<int, VariantNumeric>`. -/
abbrev ChannelValueMap : Type := List (Int × VariantNumeric)

/-- KeyFrame.cpp: `KeyFrames::insertKeyFrame`.  If the channel is absent a new
singleton timeline is assigned; otherwise the keyframe is `emplace`d into the
existing timeline (which keeps any existing entry at the same time). -/
def insertKeyFrame (animation : Animation) (keyframe : KeyFrame) : Animation :=
  match alFind? keyframe.mChannel animation with
  | none => alEmplace keyframe.mChannel [(keyframe.mTimeMS, keyframe)] animation
  | some _ => alUpdate keyframe.mChannel (alEmplace keyframe.mTimeMS keyframe) animation

/-- KeyFrame.cpp: `interpolate_constant`. -/
def interpolate_constant (a b before_a after_b alpha : ℝ) : ℝ := a

/-- KeyFrame.cpp: `interpolate_linear`. -/
def interpolate_linear (a b before_a after_b alpha : ℝ) : ℝ := (b - a) * alpha + a

/-- KeyFrame.cpp: `interpolate_cubic`. -/
def interpolate_cubic (a b before_a after_b alpha : ℝ) : ℝ :=
  let mu2 := alpha * alpha
  let a0 := after_b - b - before_a + a
  let a1 := before_a - a - a0
  let a2 := b - before_a
  let a3 := a
  a0 * alpha * mu2 + a1 * mu2 + a2 * alpha + a3

/-- KeyFrame.cpp: `interpolate_cosine` (uses the code's `PI` constant).
CAVEAT: `cos` is idealised as the exact `Real.cos`.  The program evaluates
`cos` in binary64, where the double nearest `3.14159265359` lies about
`2e-13` from π, its true cosine is within about `2e-26` of `-1` (far inside
half an ulp of `-1.0`), and the library call therefore returns exactly
`-1.0`; in the exact-real idealisation `Real.cos PI ≠ -1` instead.  Endpoint
behaviour at `alpha = 1` is thus a floating-point rounding fact that this
embedding does not capture, and no claim verdict here rests on the exact-real
value of `Real.cos PI`. -/
def interpolate_cosine (a b before_a after_b alpha : ℝ) : ℝ :=
  let tmp := (1 - Real.cos (alpha * PI)) / 2
  a * (1 - tmp) + b * tmp

/-- KeyFrame.cpp: `interpolate_exponential` (`pow` on reals; the `a = 0` /
negative-base domain is undefined in the source and unused by the claims). -/
def interpolate_exponential (a b before_a after_b alpha : ℝ) : ℝ :=
  a * Real.rpow (b / a) alpha

/-- KeyFrame.cpp: the `switch (interpolationMethod)` dispatch inside
`iterationFunc`.  The enum is closed, so the `default: continue` arm of the
source is unreachable. -/
def interpolationFuncFor : KeyFrameInterpolationType → (ℝ → ℝ → ℝ → ℝ → ℝ → ℝ)
  | .Constant => interpolate_constant
  | .Linear => interpolate_linear
  | .Cubic => interpolate_cubic
  | .Cosine => interpolate_cosine
  | .Exponential => interpolate_exponential

/-- KeyFrame.cpp: the `lastKeyFrames` vector of `processChannel`
(`s0` = `lastKeyFrames[0]` = newest … `s3` = `lastKeyFrames[3]` = oldest). -/
structure Window where
  s0 : KeyFrame
  s1 : KeyFrame
  s2 : KeyFrame
  s3 : KeyFrame

/-- The shift `[3]←[2]←[1]←[0]` followed by `[0] ← currentKeyFrame`. -/
def Window.shiftIn (w : Window) (k : KeyFrame) : Window := ⟨k, w.s0, w.s1, w.s2⟩

/-- The flush-pass shift `[3]←[2]←[1]←[0]` with `[0]` left unchanged. -/
def Window.shiftKeep (w : Window) : Window := ⟨w.s0, w.s0, w.s1, w.s2⟩

/-- Positional access `lastKeyFrames[m]`. -/
def Window.slot (w : Window) : Nat → KeyFrame
  | 0 => w.s0
  | 1 => w.s1
  | 2 => w.s2
  | _ => w.s3

/-- KeyFrame.cpp: the `for (double time = start_time; time < end_time;
time += iterationMS)` loop body of `iterationFunc`, returning the emitted
`(time, result)` pairs.  The `0 < iterationMS` guard only excludes inputs on
which the C++ loop would never terminate. -/
def segLoop (iterationMS start_time end_time : ℝ) (interpFn : ℝ → ℝ → ℝ → ℝ → ℝ → ℝ)
    (a b before_a after_b : ℝ) (time : ℝ) : List (ℝ × ℝ) :=
  if h : time < end_time ∧ 0 < iterationMS then
    (time, interpFn a b before_a after_b ((time - start_time) / (end_time - start_time))) ::
      segLoop iterationMS start_time end_time interpFn a b before_a after_b (time + iterationMS)
  else []
termination_by (⌈(end_time - time) / iterationMS⌉).toNat
decreasing_by
  obtain ⟨h1, h2⟩ := h
  have hne : iterationMS ≠ 0 := ne_of_gt h2
  have key : (end_time - (time + iterationMS)) / iterationMS
      = (end_time - time) / iterationMS - 1 := by
    field_simp
    ring
  have hpos : 0 < ⌈(end_time - time) / iterationMS⌉ :=
    Int.ceil_pos.mpr (div_pos (sub_pos.mpr h1) h2)
  rw [key, Int.ceil_sub_one]
  omega

/-- KeyFrame.cpp: `iterationFunc` of `processChannel`: process the segment
whose start is `lastKeyFrames[2]` and whose end is `lastKeyFrames[1]`, using
slot `[3]` as `before_a` and slot `[0]` as `after_b`, with the interpolation
mode of the start keyframe (slot `[2]`).  The per-iteration function selection
of the source is hoisted out of the loop (the window is fixed within it). -/
def iterationFunc (iterationMS : ℝ) (keyFrameExtractorFunc : VariantNumeric → ℝ)
    (lastKeyFrames : Window) : List (ℝ × ℝ) :=
  segLoop iterationMS lastKeyFrames.s2.mTimeMS lastKeyFrames.s1.mTimeMS
    (interpolationFuncFor lastKeyFrames.s2.mInterpolation)
    (keyFrameExtractorFunc lastKeyFrames.s2.mValue)
    (keyFrameExtractorFunc lastKeyFrames.s1.mValue)
    (keyFrameExtractorFunc lastKeyFrames.s3.mValue)
    (keyFrameExtractorFunc lastKeyFrames.s0.mValue)
    lastKeyFrames.s2.mTimeMS

/-- The windows visited by the main `for (auto& currentKeyFrame : it->second)`
loop of `processChannel`: shift the new keyframe in, then run `iterationFunc`. -/
def mainWindows (w : Window) : List KeyFrame → List Window
  | [] => []
  | k :: ks => w.shiftIn k :: mainWindows (w.shiftIn k) ks

/-- The window state left behind by the main loop. -/
def finalWindow (w : Window) : List KeyFrame → Window
  | [] => w
  | k :: ks => finalWindow (w.shiftIn k) ks

/-- All windows on which `iterationFunc` is run: the main pass over every
keyframe followed by the two flush passes (`for (int i = 0; i < 2; ++i)`). -/
def allWindows (first : KeyFrame) (ks : List KeyFrame) : List Window :=
  mainWindows ⟨first, first, first, first⟩ ks ++
    [(finalWindow ⟨first, first, first, first⟩ ks).shiftKeep,
     (finalWindow ⟨first, first, first, first⟩ ks).shiftKeep.shiftKeep]

/-- Concatenate the emissions produced on each window, in order. -/
def emitAll (f : Window → List (ℝ × ℝ)) : List Window → List (ℝ × ℝ)
  | [] => []
  | w :: ws => f w ++ emitAll f ws

/-- KeyFrame.cpp: `processChannel`.  Returns the C++ boolean result paired with
the list of `(currentTimeMS, value)` pairs passed to `processorFunc`. -/
def processChannel (animation : Animation) (channel : Int) (iterationMS : ℝ)
    (keyFrameExtractorFunc : VariantNumeric → ℝ) : Bool × List (ℝ × ℝ) :=
  match alFind? channel animation with
  | none => (false, [])
  | some [] => (false, [])
  | some (e :: rest) =>
      (true, emitAll (iterationFunc iterationMS keyFrameExtractorFunc)
        (allWindows e.2 ((e :: rest).map Prod.snd)))

/-- KeyFrame.cpp: `std::round` on a double (half away from zero). -/
def cppRound (x : ℝ) : Int := if 0 ≤ x then ⌊x + 1 / 2⌋ else -⌊-x + 1 / 2⌋

/-- KeyFrame.cpp: `KeyFrames::processChannelAsBoolean` (extract `0.0 / 1.0`,
re-threshold the emitted value at `>= 0.5`). -/
def processChannelAsBoolean (animation : Animation) (channel : Int) (iterationMS : ℝ) :
    Bool × List (ℝ × Bool) :=
  let r := processChannel animation channel iterationMS
    (fun value => if value.as_boolean then 1 else 0)
  (r.1, r.2.map (fun e => (e.1, if 0.5 ≤ e.2 then true else false)))

/-- KeyFrame.cpp: `KeyFrames::processChannelAsInteger` (extract by cast to
double, re-round the emitted value to the nearest integer). -/
def processChannelAsInteger (animation : Animation) (channel : Int) (iterationMS : ℝ) :
    Bool × List (ℝ × bigint) :=
  let r := processChannel animation channel iterationMS
    (fun value => (value.as_big_integer : ℝ))
  (r.1, r.2.map (fun e => (e.1, cppRound e.2)))

/-- KeyFrame.cpp: `KeyFrames::processChannelAsDouble` (identity adapters). -/
def processChannelAsDouble (animation : Animation) (channel : Int) (iterationMS : ℝ) :
    Bool × List (ℝ × ℝ) :=
  let r := processChannel animation channel iterationMS (fun value => value.as_double)
  (r.1, r.2.map (fun e => (e.1, e.2)))

/-- KeyFrame.cpp: the per-channel lambda of `processAllChannels`: for each
emitted `(currentTimeMS, value)`, compute `index = size_t(currentTimeMS /
iterationMS)` and, if `index < numSamples`, `emplace` the value (rewrapped as
a `VariantNumeric`) into `allValues[index]` under the channel id. -/
def placeEmissions {β : Type} (mk : β → VariantNumeric) (iterationMS : ℝ) (numSamples : Nat)
    (ch : Int) : List (ℝ × β) → List ChannelValueMap → List ChannelValueMap
  | [], allValues => allValues
  | e :: rest, allValues =>
      let index := (⌊e.1 / iterationMS⌋).toNat
      placeEmissions mk iterationMS numSamples ch rest
        (if index < numSamples then
          allValues.set index (alEmplace ch (mk e.2) (allValues.getD index []))
        else allValues)

/-- KeyFrame.cpp: the `for (auto channel : animation)` loop of
`processAllChannels`: skip empty timelines, dispatch on the kind of the first
keyframe's value, and run the matching typed wrapper over the whole animation. -/
def channelsFold (animation : Animation) (iterationMS : ℝ) (numSamples : Nat) :
    List (Int × Timeline) → List ChannelValueMap → List ChannelValueMap
  | [], allValues => allValues
  | (ch, tl) :: rest, allValues =>
    match tl with
    | [] => channelsFold animation iterationMS numSamples rest allValues
    | e0 :: _ =>
      channelsFold animation iterationMS numSamples rest
        (match e0.2.mValue.get_type with
          | .BOOLEAN => placeEmissions VariantNumeric.ofBool iterationMS numSamples ch
              (processChannelAsBoolean animation ch iterationMS).2 allValues
          | .BIG_INTEGER => placeEmissions VariantNumeric.ofBigInt iterationMS numSamples ch
              (processChannelAsInteger animation ch iterationMS).2 allValues
          | .DOUBLE => placeEmissions VariantNumeric.ofDouble iterationMS numSamples ch
              (processChannelAsDouble animation ch iterationMS).2 allValues)

/-- KeyFrame.cpp: the delivery loop of `processAllChannels`: each snapshot is
handed to `processFunc` with time `iteration * iterationMS`. -/
def deliver (iterationMS : ℝ) : Nat → List ChannelValueMap → List (ℝ × ChannelValueMap)
  | _, [] => []
  | i, v :: rest => ((i : ℝ) * iterationMS, v) :: deliver iterationMS (i + 1) rest

/-- KeyFrame.cpp: `KeyFrames::processAllChannels`, purified to return the
sequence of `(timeMS, snapshot)` pairs passed to `processFunc`.  (The C++
function is declared `bool` but contains no return statement, so its boolean
result does not exist in the model.) -/
def processAllChannels (animation : Animation) (iterationMS startMS endMS : ℝ) :
    List (ℝ × ChannelValueMap) :=
  let numSamples := (⌊(endMS - startMS) / iterationMS⌋).toNat
  deliver iterationMS 0
    (channelsFold animation iterationMS numSamples animation (List.replicate numSamples []))

/-- Utils.cpp: `get_buffer_duration_ms`. -/
def get_buffer_duration_ms (buffer : List Nat) : ℝ :=
  (buffer.length : ℝ) / 2 / WAV_SAMPLE_RATE_HZ * 1000

/-- Utils.cpp: `get_buffer_pos_from_ms` (`size_t` truncation of a non-negative
double, then forced even by incrementing an odd result). -/
def get_buffer_pos_from_ms (ms : ℝ) : Nat :=
  let r := (⌊ms / 1000 * 44100 * 2⌋).toNat
  if r % 2 = 1 then r + 1 else r

/-- Two's-complement reinterpretation `int16_t(uint16_t)`. -/
def toInt16 (n : Nat) : Int :=
  let m : Int := (n : Int) % 65536
  if m < 32768 then m else m - 65536

/-- Reinterpretation `uint16_t(int16_t)` (and the value-preserving implicit
conversions back to the buffer's unsigned storage). -/
def toUInt16 (i : Int) : Nat := (i % 65536).toNat

/-- `static_cast<int16_t>(double)`: truncation toward zero.  (Out-of-range
casts are undefined behaviour in the source; every use here stays in range.) -/
def castDoubleToInt16 (x : ℝ) : Int := if 0 ≤ x then ⌊x⌋ else ⌈x⌉

/-- Effects.cpp: `fader`. -/
def fader (base effect : Int) (dry_wet : ℝ) : Int :=
  castDoubleToInt16 (((effect : ℝ) - (base : ℝ)) * dry_wet + (base : ℝ))

/-- Effects.cpp: `enum class EffectType`. -/
inductive EffectType where
  | DISTORT

/-- Effects.cpp: `transform_distort`. -/
def transform_distort (input_val : Nat) (valuesByChannel : ChannelValueMap) : Nat :=
  let input_value : Int := toInt16 input_val
  match alFind? 0 valuesByChannel, alFind? 1 valuesByChannel with
  | some dryWetVal, some cutoffVal =>
      let dryWet := dryWetVal.as_double
      let cutoff := cutoffVal.as_double
      if dryWet = 0 then toUInt16 input_value
      else
        let cutoffTop : Int := castDoubleToInt16 (AMP_MAX * cutoff)
        let cutoffBottom : Int := -cutoffTop
        let output_value : Int := if cutoffTop < input_value then cutoffTop else input_value
        let output_value2 : Int := if output_value < cutoffBottom then cutoffBottom else output_value
        toUInt16 (fader input_value output_value2 dryWet)
  | _, _ => toUInt16 input_value

/-- Effects.cpp: the per-tick lambda of `apply_effect`: map the tick time to an
even buffer index and transform the left and right samples of that frame. -/
def applyTick (transformFunc : Nat → ChannelValueMap → Nat) (buffer : List Nat)
    (tick : ℝ × ChannelValueMap) : List Nat :=
  let index := get_buffer_pos_from_ms tick.1
  if buffer.length ≤ index + 1 then buffer
  else
    let buffer1 := buffer.set index (transformFunc (buffer.getD index 0) tick.2)
    buffer1.set (index + 1) (transformFunc (buffer1.getD (index + 1) 0) tick.2)

/-- Effects.cpp: `Effects::apply_effect` (the only effect is `DISTORT`). -/
def apply_effect (buffer : List Nat) (animation : Animation) (effectType : EffectType) :
    List Nat :=
  let transformFunc := match effectType with
    | .DISTORT => transform_distort
  (processAllChannels animation SAMPLE_MS 0 (get_buffer_duration_ms buffer)).foldl
    (applyTick transformFunc) buffer

/-- The window visible after the main loop has consumed `j + 1` keyframes of
`l`, starting from window `w`: slot `m` holds `l[j - m]` once enough keyframes
have been seen, and otherwise the still-unshifted slot of `w`. -/
def winFrom (w : Window) (l : List KeyFrame) (j : Nat) : Window :=
  ⟨l.getD j default,
   if 1 ≤ j then l.getD (j - 1) default else w.s0,
   if 2 ≤ j then l.getD (j - 2) default else w.slot (1 - j),
   if 3 ≤ j then l.getD (j - 3) default else w.slot (2 - j)⟩

/-- The uniform index formula for every window the scan processes: on pass `p`
(`0 ≤ p < n + 2`, the last two being the flush passes) slot `m` holds the
keyframe at index `p - m`, clamped into `[0, n - 1]`. -/
def winAt (ks : List KeyFrame) (p : Nat) : Window :=
  ⟨ks.getD (min p (ks.length - 1)) default,
   ks.getD (min (p - 1) (ks.length - 1)) default,
   ks.getD (min (p - 2) (ks.length - 1)) default,
   ks.getD (min (p - 3) (ks.length - 1)) default⟩

/-- The window of the `j`-th proper segment (`0 ≤ j < n - 1`): start keyframe
`ks[j]` (slot 2, supplying the interpolation mode), end keyframe `ks[j + 1]`
(slot 1), `before_a = ks[j - 1]` and `after_b = ks[j + 2]` (clamped at the
boundaries). -/
def segmentWindow (ks : List KeyFrame) (j : Nat) : Window :=
  ⟨ks.getD (min (j + 2) (ks.length - 1)) default,
   ks.getD (j + 1) default,
   ks.getD j default,
   ks.getD (j - 1) default⟩

/-! ### Basic lemmas about the embedded operations -/

theorem segLoop_eq_nil {iterationMS start_time end_time : ℝ}
    {interpFn : ℝ → ℝ → ℝ → ℝ → ℝ → ℝ} {a b before_a after_b time : ℝ}
    (h : ¬(time < end_time ∧ 0 < iterationMS)) :
    segLoop iterationMS start_time end_time interpFn a b before_a after_b time = [] := by
  rw [segLoop, dif_neg h]

theorem segLoop_eq_cons {iterationMS start_time end_time : ℝ}
    {interpFn : ℝ → ℝ → ℝ → ℝ → ℝ → ℝ} {a b before_a after_b time : ℝ}
    (h : time < end_time ∧ 0 < iterationMS) :
    segLoop iterationMS start_time end_time interpFn a b before_a after_b time =
      (time, interpFn a b before_a after_b ((time - start_time) / (end_time - start_time))) ::
        segLoop iterationMS start_time end_time interpFn a b before_a after_b
          (time + iterationMS) := by
  rw [segLoop, dif_pos h]

/-- A window whose segment start and end times coincide emits nothing: the
loop condition fails on its very first test. -/
theorem iterationFunc_degenerate {iterationMS : ℝ} {extractFn : VariantNumeric → ℝ}
    {w : Window} (h : w.s1.mTimeMS = w.s2.mTimeMS) :
    iterationFunc iterationMS extractFn w = [] := by
  unfold iterationFunc
  exact segLoop_eq_nil (by rw [h]; exact fun hc => lt_irrefl _ hc.1)

theorem emitAll_nil (f : Window → List (ℝ × ℝ)) : emitAll f [] = [] := rfl

theorem emitAll_cons (f : Window → List (ℝ × ℝ)) (w : Window) (ws : List Window) :
    emitAll f (w :: ws) = f w ++ emitAll f ws := rfl

theorem emitAll_append (f : Window → List (ℝ × ℝ)) (ws ws' : List Window) :
    emitAll f (ws ++ ws') = emitAll f ws ++ emitAll f ws' := by
  induction ws with
  | nil => simp [emitAll]
  | cons w ws ih => simp [emitAll, ih]

theorem alFind?_alEmplace_of_not_found {K V : Type} [LinearOrder K] (k : K) (v : V)
    (l : List (K × V)) (h : alFind? k l = none) : alFind? k (alEmplace k v l) = some v := by
  induction l with
  | nil => simp [alEmplace, alFind?]
  | cons e rest ih =>
    rw [alFind?] at h
    by_cases he : e.1 = k
    · simp [he] at h
    · rw [if_neg he] at h
      rw [alEmplace]
      by_cases h1 : k < e.1
      · simp [h1, alFind?]
      · have h2 : ¬k = e.1 := fun hh => he hh.symm
        simp only [if_neg h1, if_neg h2, alFind?, if_neg he]
        exact ih h

theorem alFind?_alUpdate_self {K V : Type} [DecidableEq K] (k : K) (f : V → V)
    (l : List (K × V)) : alFind? k (alUpdate k f l) = (alFind? k l).map f := by
  induction l with
  | nil => simp [alUpdate, alFind?]
  | cons e rest ih =>
    by_cases h : e.1 = k <;> simp [alUpdate, alFind?, h, ih]

theorem alEmplace_head_eq {K V : Type} [LinearOrder K] (k : K) (v w : V)
    (rest : List (K × V)) : alEmplace k v ((k, w) :: rest) = (k, w) :: rest := by
  simp [alEmplace, lt_irrefl]

/-- The `alpha = 0` endpoint of cosine interpolation is exact independently of
how `cos` is evaluated: `cos 0 = 1` holds exactly in binary64 and in ℝ alike,
so the blend weight is `0` and the result is `a`. -/
theorem interpolate_cosine_at_alpha_zero (a b before_a after_b : ℝ) :
    interpolate_cosine a b before_a after_b 0 = a := by
  unfold interpolate_cosine
  simp [Real.cos_zero]

/-! ### Characterization of the sliding window sequence -/

theorem winFrom_shiftIn (w : Window) (a : KeyFrame) (l : List KeyFrame) (j : Nat) :
    winFrom (w.shiftIn a) l j = winFrom w (a :: l) (j + 1) := by
  rcases j with _ | _ | _ | j <;>
    simp [winFrom, Window.shiftIn, Window.slot, List.getD_cons_succ]

theorem mainWindows_eq (l : List KeyFrame) :
    ∀ w, mainWindows w l = (List.range l.length).map (winFrom w l) := by
  induction l with
  | nil => intro w; rfl
  | cons a l' ih =>
    intro w
    rw [mainWindows, ih (w.shiftIn a)]
    rw [List.length_cons, List.range_succ_eq_map, List.map_cons, List.map_map]
    have hhead : winFrom w (a :: l') 0 = w.shiftIn a := by
      simp [winFrom, Window.shiftIn, Window.slot]
    have htail : (List.range l'.length).map (winFrom (w.shiftIn a) l')
        = (List.range l'.length).map (winFrom w (a :: l') ∘ Nat.succ) := by
      apply List.map_congr_left
      intro j hj
      show winFrom (w.shiftIn a) l' j = winFrom w (a :: l') (j + 1)
      exact winFrom_shiftIn w a l' j
    rw [hhead, htail]

theorem finalWindow_eq (l : List KeyFrame) :
    ∀ w, l ≠ [] → finalWindow w l = winFrom w l (l.length - 1) := by
  induction l with
  | nil => intro w h; exact absurd rfl h
  | cons a l' ih =>
    intro w _
    rcases l' with _ | ⟨b, l''⟩
    · simp [finalWindow, winFrom, Window.shiftIn, Window.slot]
    · rw [finalWindow, ih (w.shiftIn a) (by simp), winFrom_shiftIn]
      simp only [List.length_cons]
      congr 1 <;> omega

theorem winFrom_const (k0 : KeyFrame) (rest : List KeyFrame) (j : Nat)
    (hj : j < (k0 :: rest).length) :
    winFrom ⟨k0, k0, k0, k0⟩ (k0 :: rest) j = winAt (k0 :: rest) j := by
  have hgz : (k0 :: rest).getD 0 default = k0 := rfl
  unfold winFrom winAt
  have hlen : (k0 :: rest).length - 1 = rest.length := by simp
  rw [hlen]
  have hjle : j ≤ rest.length := by simp at hj; omega
  congr 1
  · congr 1; omega
  · by_cases h1 : 1 ≤ j
    · rw [if_pos h1]; congr 1; omega
    · rw [if_neg h1]
      have : j = 0 := by omega
      subst this
      rw [show min (0 - 1) rest.length = 0 by omega, hgz]
  · by_cases h2 : 2 ≤ j
    · rw [if_pos h2]; congr 1; omega
    · rw [if_neg h2]
      rw [show min (j - 2) rest.length = 0 by omega, hgz]
      rcases (by omega : j = 0 ∨ j = 1) with h | h <;> subst h <;> rfl
  · by_cases h3 : 3 ≤ j
    · rw [if_pos h3]; congr 1; omega
    · rw [if_neg h3]
      rw [show min (j - 3) rest.length = 0 by omega, hgz]
      rcases (by omega : j = 0 ∨ j = 1 ∨ j = 2) with h | h | h <;> subst h <;> rfl

/-- Every window on which `iterationFunc` runs, in order: main passes `0 …
n - 1` followed by the two flush passes `n` and `n + 1`, all described by the
single clamped-index formula `winAt`. -/
theorem allWindows_eq (k0 : KeyFrame) (rest : List KeyFrame) :
    allWindows k0 (k0 :: rest)
      = (List.range ((k0 :: rest).length + 2)).map (winAt (k0 :: rest)) := by
  set ks : List KeyFrame := k0 :: rest with hks
  have hne : ks ≠ [] := by simp [hks]
  have hlen : ks.length = rest.length + 1 := by simp [hks]
  unfold allWindows
  rw [mainWindows_eq, finalWindow_eq _ _ hne]
  have hmain : (List.range ks.length).map (winFrom ⟨k0, k0, k0, k0⟩ ks)
      = (List.range ks.length).map (winAt ks) := by
    apply List.map_congr_left
    intro j hj
    exact winFrom_const k0 rest j (List.mem_range.mp hj)
  rw [hmain]
  have hfin : winFrom ⟨k0, k0, k0, k0⟩ ks (ks.length - 1) = winAt ks (ks.length - 1) :=
    winFrom_const k0 rest _ (by rw [← hks]; omega)
  rw [hfin]
  have hflush1 : (winAt ks (ks.length - 1)).shiftKeep = winAt ks ks.length := by
    unfold winAt Window.shiftKeep
    simp only
    congr 1 <;> congr 1 <;> omega
  have hflush2 : (winAt ks ks.length).shiftKeep = winAt ks (ks.length + 1) := by
    unfold winAt Window.shiftKeep
    simp only
    congr 1 <;> congr 1 <;> omega
  rw [hflush1, hflush2]
  rw [show ks.length + 2 = (ks.length + 1) + 1 by rfl, List.range_succ, List.range_succ,
    List.map_append, List.map_append]
  simp

/-- A channel whose timeline is a single keyframe emits nothing: every window
of the scan repeats that keyframe, so every segment is empty. -/
theorem processChannel_singleton (animation : Animation) (channel : Int) (iterationMS : ℝ)
    (extractFn : VariantNumeric → ℝ) (t : ℝ) (kf : KeyFrame)
    (hfind : alFind? channel animation = some [(t, kf)]) :
    processChannel animation channel iterationMS extractFn = (true, []) := by
  have hw : iterationFunc iterationMS extractFn ⟨kf, kf, kf, kf⟩ = [] :=
    iterationFunc_degenerate rfl
  unfold processChannel
  rw [hfind]
  simp [allWindows, mainWindows, finalWindow, Window.shiftIn, Window.shiftKeep, emitAll, hw]

theorem alFind?_alEmplace_ne {K V : Type} [LinearOrder K] (k k' : K) (v : V)
    (l : List (K × V)) (h : k' ≠ k) :
    alFind? k (alEmplace k' v l) = alFind? k l := by
  induction l with
  | nil => simp [alEmplace, alFind?, h]
  | cons e rest ih =>
    rw [alEmplace]
    by_cases h1 : k' < e.1
    · rw [if_pos h1, alFind?, if_neg h, alFind?]
    · by_cases h2 : k' = e.1
      · rw [if_neg h1, if_pos h2]
      · rw [if_neg h1, if_neg h2, alFind?, alFind?]
        by_cases h3 : e.1 = k
        · rw [if_pos h3, if_pos h3]
        · rw [if_neg h3, if_neg h3, ih]

theorem placeEmissions_preserves_absent {β : Type} (mk : β → VariantNumeric)
    (iterationMS : ℝ) (numSamples : Nat) (ch c : Int) (hne : ch ≠ c) :
    ∀ (es : List (ℝ × β)) (acc : List ChannelValueMap),
      (∀ s ∈ acc, alFind? c s = none) →
      ∀ s ∈ placeEmissions mk iterationMS numSamples ch es acc, alFind? c s = none := by
  intro es
  induction es with
  | nil => intro acc hacc; simpa [placeEmissions] using hacc
  | cons e rest ih =>
    intro acc hacc
    rw [placeEmissions]
    apply ih
    intro s hs
    by_cases hidx : (⌊e.1 / iterationMS⌋).toNat < numSamples
    · rw [if_pos hidx] at hs
      rcases List.mem_or_eq_of_mem_set hs with hmem | heq
      · exact hacc s hmem
      · subst heq
        rw [alFind?_alEmplace_ne _ _ _ _ hne]
        by_cases hlt : (⌊e.1 / iterationMS⌋).toNat < acc.length
        · rw [List.getD_eq_getElem _ _ hlt]
          exact hacc _ (List.getElem_mem hlt)
        · rw [List.getD_eq_default _ _ (by omega)]
          rfl
    · rw [if_neg hidx] at hs
      exact hacc s hs

/-- During the per-channel pass of `processAllChannels`, a channel whose
timeline holds exactly one keyframe contributes nothing, and every other
channel only ever writes its own id, so the single-keyframe channel's id never
appears in any snapshot. -/
theorem channelsFold_preserves_absent (animation : Animation) (c : Int) (t : ℝ)
    (kf : KeyFrame) (hfind : alFind? c animation = some [(t, kf)])
    (iterationMS : ℝ) (numSamples : Nat) :
    ∀ (entries : List (Int × Timeline)) (acc : List ChannelValueMap),
      (∀ s ∈ acc, alFind? c s = none) →
      ∀ s ∈ channelsFold animation iterationMS numSamples entries acc,
        alFind? c s = none := by
  intro entries
  induction entries with
  | nil => intro acc hacc; simpa [channelsFold] using hacc
  | cons entry rest ih =>
    intro acc hacc
    obtain ⟨ch, tl⟩ := entry
    rcases tl with _ | ⟨e0, tl'⟩
    · rw [channelsFold]
      exact ih acc hacc
    · rw [channelsFold]
      apply ih
      by_cases hch : ch = c
      · subst hch
        have hb : (processChannelAsBoolean animation ch iterationMS).2 = [] := by
          simp only [processChannelAsBoolean,
            processChannel_singleton animation ch iterationMS _ t kf hfind, List.map_nil]
        have hi : (processChannelAsInteger animation ch iterationMS).2 = [] := by
          simp only [processChannelAsInteger,
            processChannel_singleton animation ch iterationMS _ t kf hfind, List.map_nil]
        have hd : (processChannelAsDouble animation ch iterationMS).2 = [] := by
          simp only [processChannelAsDouble,
            processChannel_singleton animation ch iterationMS _ t kf hfind, List.map_nil]
        cases hty : e0.2.mValue.get_type <;>
          simp only [hty, hb, hi, hd, placeEmissions] <;> exact hacc
      · cases hty : e0.2.mValue.get_type <;> simp only [hty] <;>
          exact placeEmissions_preserves_absent _ _ _ _ _ hch _ acc hacc

theorem deliver_mem (iterationMS : ℝ) :
    ∀ (i : Nat) (acc : List ChannelValueMap) (p : ℝ × ChannelValueMap),
      p ∈ deliver iterationMS i acc → p.2 ∈ acc := by
  intro i acc
  induction acc generalizing i with
  | nil => intro p hp; simp [deliver] at hp
  | cons v rest ih =>
    intro p hp
    rw [deliver] at hp
    rcases List.mem_cons.mp hp with h | h
    · subst h; simp
    · exact List.mem_cons_of_mem _ (ih (i + 1) p h)

/-- Reinterpreting a stored `uint16_t` as `int16_t` and back is the identity. -/
theorem toUInt16_toInt16 (n : Nat) (h : n < 65536) : toUInt16 (toInt16 n) = n := by
  simp only [toInt16, toUInt16]
  split <;> omega

/-- The pass-through paths of `transform_distort`: a missing channel 0 or 1,
or a zero dry/wet value, return the sample reinterpreted but unchanged. -/
theorem transform_distort_passthrough (input : Nat) (m : ChannelValueMap)
    (h : alFind? 0 m = none ∨ alFind? 1 m = none ∨
      alFind? 0 m = some (.ofDouble 0)) :
    transform_distort input m = toUInt16 (toInt16 input) := by
  unfold transform_distort
  rcases h with h | h | h
  · rw [h]
  · rcases hh : alFind? (0 : Int) m with _ | dw <;> rw [h]
  · rw [h]
    rcases hh : alFind? (1 : Int) m with _ | cv
    · rfl
    · simp [VariantNumeric.as_double]

theorem set_getD_self {α : Type} :
    ∀ (l : List α) (i : Nat) (d : α), i < l.length → l.set i (l.getD i d) = l
  | [], i, d, h => by simp at h
  | a :: l, 0, d, _ => by simp
  | a :: l, i + 1, d, h => by
      rw [List.getD_cons_succ, List.set_cons_succ,
        set_getD_self l i d (by simpa using h)]

/-- If every snapshot satisfies a Distort pass-through condition, the per-tick
buffer update is the identity. -/
theorem foldl_applyTick_id (ticks : List (ℝ × ChannelValueMap)) :
    ∀ (buffer : List Nat), (∀ x ∈ buffer, x < 65536) →
      (∀ p ∈ ticks, alFind? 0 p.2 = none ∨ alFind? 1 p.2 = none ∨
        alFind? 0 p.2 = some (.ofDouble 0)) →
      ticks.foldl (applyTick transform_distort) buffer = buffer := by
  induction ticks with
  | nil => intro buffer _ _; rfl
  | cons tkt rest ih =>
    intro buffer hb hcond
    rw [List.foldl_cons]
    have hstep : applyTick transform_distort buffer tkt = buffer := by
      unfold applyTick
      by_cases hidx : buffer.length ≤ get_buffer_pos_from_ms tkt.1 + 1
      · rw [if_pos hidx]
      · rw [if_neg hidx]
        push_neg at hidx
        have h1lt : get_buffer_pos_from_ms tkt.1 < buffer.length := by omega
        have hv1 : buffer.getD (get_buffer_pos_from_ms tkt.1) 0 ∈ buffer := by
          rw [List.getD_eq_getElem _ _ h1lt]
          exact List.getElem_mem h1lt
        have ht1 : transform_distort (buffer.getD (get_buffer_pos_from_ms tkt.1) 0) tkt.2
            = buffer.getD (get_buffer_pos_from_ms tkt.1) 0 := by
          rw [transform_distort_passthrough _ _ (hcond tkt (by simp)),
            toUInt16_toInt16 _ (hb _ hv1)]
        rw [ht1, set_getD_self _ _ _ h1lt]
        have hv2 : buffer.getD (get_buffer_pos_from_ms tkt.1 + 1) 0 ∈ buffer := by
          rw [List.getD_eq_getElem _ _ hidx]
          exact List.getElem_mem hidx
        have ht2 : transform_distort (buffer.getD (get_buffer_pos_from_ms tkt.1 + 1) 0) tkt.2
            = buffer.getD (get_buffer_pos_from_ms tkt.1 + 1) 0 := by
          rw [transform_distort_passthrough _ _ (hcond tkt (by simp)),
            toUInt16_toInt16 _ (hb _ hv2)]
        simp only [ht2]
        exact set_getD_self _ _ _ hidx
    rw [hstep]
    exact ih buffer hb (fun p hp => hcond p (List.mem_cons_of_mem _ hp))

/-- Concrete run used by C1: a single channel holding one keyframe at `t = 0`,
sampled at tick 10 over `[0, 20)`, yields two snapshots that are both empty. -/
theorem processAllChannels_single_example :
    processAllChannels
        [((0 : Int), [((0 : ℝ), (⟨0, 0, .Linear, .ofDouble 5⟩ : KeyFrame))])]
        10 0 20 = [(0, []), (10, [])] := by
  have hsing := processChannel_singleton
    [((0 : Int), [((0 : ℝ), (⟨0, 0, .Linear, .ofDouble 5⟩ : KeyFrame))])]
    0 10 VariantNumeric.as_double 0 ⟨0, 0, .Linear, .ofDouble 5⟩ rfl
  have hnum : (⌊((20 : ℝ) - 0) / 10⌋).toNat = 2 := by norm_num; rfl
  simp only [processAllChannels, hnum, channelsFold, VariantNumeric.get_type,
    processChannelAsDouble, hsing, List.map_nil, placeEmissions, deliver]
  norm_num

/-! ### Claims -/

/-- C4: for a channel timeline with `n ≥ 2` strictly time-sorted keyframes,
the scan's emissions are exactly the concatenation, in order, of the emissions
of the `n - 1` consecutive segments `[k_j, k_{j+1}]` (`0 ≤ j < n - 1`), each
processed exactly once through `iterationFunc` on its `segmentWindow` — whose
slot 2 is the start keyframe `k_j`, supplying the interpolation mode, with
`k_{j-1}` / `k_{j+2}` (boundary-clamped) as lookbehind/lookahead.  The window
lags by one keyframe in the main pass and the two flush passes supply the
final segments; every other window the scan visits is degenerate and emits
nothing.  With a positive tick each proper segment emits at least one value. -/
theorem claim_C4_segments_emitted_exactly_once
    (animation : Animation) (channel : Int) (iterationMS : ℝ)
    (extractFn : VariantNumeric → ℝ) (tl : Timeline)
    (hfind : alFind? channel animation = some tl)
    (hn : 2 ≤ tl.length)
    (hsorted : (tl.map Prod.snd).Pairwise (fun k k' => k.mTimeMS < k'.mTimeMS)) :
    (processChannel animation channel iterationMS extractFn).2
      = emitAll (iterationFunc iterationMS extractFn)
          ((List.range (tl.length - 1)).map (segmentWindow (tl.map Prod.snd)))
    ∧ (0 < iterationMS → ∀ j < tl.length - 1,
        iterationFunc iterationMS extractFn (segmentWindow (tl.map Prod.snd) j) ≠ []) := by
  rcases tl with _ | ⟨e, rest⟩
  · simp at hn
  · set ks : List KeyFrame := (e :: rest).map Prod.snd with hks
    have hkscons : ks = e.2 :: rest.map Prod.snd := by simp [hks]
    have hlenmap : (e :: rest).length = ks.length := (List.length_map _ _).symm
    have hlen2 : 2 ≤ ks.length := by rw [← hlenmap]; exact hn
    have hmono : ∀ i j : Nat, i < j → j < ks.length →
        (ks.getD i default).mTimeMS < (ks.getD j default).mTimeMS := by
      intro i j hij hj
      have hi : i < ks.length := lt_trans hij hj
      rw [List.getD_eq_getElem _ _ hi, List.getD_eq_getElem _ _ hj]
      exact List.pairwise_iff_getElem.mp hsorted i j hi hj hij
    have hproc : (processChannel animation channel iterationMS extractFn).2
        = emitAll (iterationFunc iterationMS extractFn) (allWindows e.2 ks) := by
      unfold processChannel
      rw [hfind]
    have hwin : allWindows e.2 ks = (List.range (ks.length + 2)).map (winAt ks) := by
      rw [hkscons]
      exact allWindows_eq e.2 (rest.map Prod.snd)
    have hsplit : List.range (ks.length + 2)
        = [0, 1] ++ ((List.range (ks.length - 1)).map (fun j => 2 + j)
            ++ [2 + (ks.length - 1)]) := by
      have h1 : ks.length + 2 = 2 + ((ks.length - 1) + 1) := by omega
      rw [h1, List.range_add,
        show List.range ((ks.length - 1) + 1) = List.range (ks.length - 1) ++ [ks.length - 1]
          from List.range_succ (ks.length - 1),
        List.map_append]
      rfl
    have hdeg0 : iterationFunc iterationMS extractFn (winAt ks 0) = [] :=
      iterationFunc_degenerate (by simp [winAt])
    have hdeg1 : iterationFunc iterationMS extractFn (winAt ks 1) = [] :=
      iterationFunc_degenerate (by simp [winAt])
    have hdegLast : iterationFunc iterationMS extractFn (winAt ks (2 + (ks.length - 1))) = [] := by
      apply iterationFunc_degenerate
      show (ks.getD (min (2 + (ks.length - 1) - 1) (ks.length - 1)) default).mTimeMS
          = (ks.getD (min (2 + (ks.length - 1) - 2) (ks.length - 1)) default).mTimeMS
      congr 2
      omega
    have hseg : ∀ j ∈ List.range (ks.length - 1),
        (winAt ks ∘ fun x => 2 + x) j = segmentWindow ks j := by
      intro j hj
      rw [List.mem_range] at hj
      have h1 : min (2 + j) (ks.length - 1) = min (j + 2) (ks.length - 1) := by omega
      have h2 : min (2 + j - 1) (ks.length - 1) = j + 1 := by omega
      have h3 : min (2 + j - 2) (ks.length - 1) = j := by omega
      have h4 : min (2 + j - 3) (ks.length - 1) = j - 1 := by omega
      show winAt ks (2 + j) = segmentWindow ks j
      rw [winAt, segmentWindow, h1, h2, h3, h4]
    have hmapseg : (List.range (ks.length - 1)).map (winAt ks ∘ fun x => 2 + x)
        = (List.range (ks.length - 1)).map (segmentWindow ks) :=
      List.map_congr_left hseg
    have hnonempty : 0 < iterationMS → ∀ j < ks.length - 1,
        iterationFunc iterationMS extractFn (segmentWindow ks j) ≠ [] := by
      intro hpos j hj
      have hlt : (segmentWindow ks j).s2.mTimeMS < (segmentWindow ks j).s1.mTimeMS := by
        show (ks.getD j default).mTimeMS < (ks.getD (j + 1) default).mTimeMS
        exact hmono j (j + 1) (by omega) (by omega)
      unfold iterationFunc
      rw [segLoop_eq_cons ⟨hlt, hpos⟩]
      simp
    constructor
    · rw [hproc, hwin, hsplit, List.map_append, List.map_append, emitAll_append,
        emitAll_append, List.map_map, hmapseg]
      rw [show (e :: rest).length - 1 = ks.length - 1 by rw [hlenmap]]
      simp [emitAll, hdeg0, hdeg1, hdegLast]
    · rw [show (e :: rest).length - 1 = ks.length - 1 by rw [hlenmap]]
      exact hnonempty

theorem claim_C4_witness :
    (processChannel [((0 : Int),
        [((0 : ℝ), (⟨0, 0, .Linear, .ofDouble 0⟩ : KeyFrame)),
         ((10 : ℝ), (⟨0, 10, .Linear, .ofDouble 1⟩ : KeyFrame))])]
        0 10 VariantNumeric.as_double).2
      = emitAll (iterationFunc 10 VariantNumeric.as_double)
          ((List.range 1).map (segmentWindow
            [⟨0, 0, .Linear, .ofDouble 0⟩, ⟨0, 10, .Linear, .ofDouble 1⟩])) := by
  have h := claim_C4_segments_emitted_exactly_once
    [((0 : Int),
        [((0 : ℝ), (⟨0, 0, .Linear, .ofDouble 0⟩ : KeyFrame)),
         ((10 : ℝ), (⟨0, 10, .Linear, .ofDouble 1⟩ : KeyFrame))])]
    0 10 VariantNumeric.as_double
    [((0 : ℝ), (⟨0, 0, .Linear, .ofDouble 0⟩ : KeyFrame)),
     ((10 : ℝ), (⟨0, 10, .Linear, .ofDouble 1⟩ : KeyFrame))]
    rfl (by decide) (by simp)
  simpa using h.1

/-- C5: the channel holding exactly (t=0, v=0, Linear) and (t=100, v=10,
Linear), sampled with tick 10 over `[0, 100)`, yields exactly the ten values
`0,1,…,9` at times `0,10,…,90`, each placed in the snapshot at index
`floor(time / tick)` and delivered at time `index * tick`. -/
theorem claim_C5_exact_linear_ramp :
    processAllChannels
        [((0 : Int), [((0 : ℝ), (⟨0, 0, .Linear, .ofDouble 0⟩ : KeyFrame)),
                      ((100 : ℝ), (⟨0, 100, .Linear, .ofDouble 10⟩ : KeyFrame))])]
        10 0 100
      = [(0, [(0, .ofDouble 0)]), (10, [(0, .ofDouble 1)]), (20, [(0, .ofDouble 2)]),
         (30, [(0, .ofDouble 3)]), (40, [(0, .ofDouble 4)]), (50, [(0, .ofDouble 5)]),
         (60, [(0, .ofDouble 6)]), (70, [(0, .ofDouble 7)]), (80, [(0, .ofDouble 8)]),
         (90, [(0, .ofDouble 9)])] := by
  have hloop : segLoop 10 0 100 (interpolationFuncFor .Linear) 0 10 0 10 0
      = [(0, 0), (10, 1), (20, 2), (30, 3), (40, 4),
         (50, 5), (60, 6), (70, 7), (80, 8), (90, 9)] := by
    rw [segLoop_eq_cons (by norm_num), segLoop_eq_cons (by norm_num),
      segLoop_eq_cons (by norm_num), segLoop_eq_cons (by norm_num),
      segLoop_eq_cons (by norm_num), segLoop_eq_cons (by norm_num),
      segLoop_eq_cons (by norm_num), segLoop_eq_cons (by norm_num),
      segLoop_eq_cons (by norm_num), segLoop_eq_cons (by norm_num),
      segLoop_eq_nil (by norm_num)]
    norm_num [interpolationFuncFor, interpolate_linear]
  have hmain : iterationFunc 10 (fun value => value.as_double)
      ⟨⟨0, 100, .Linear, .ofDouble 10⟩, ⟨0, 100, .Linear, .ofDouble 10⟩,
       ⟨0, 0, .Linear, .ofDouble 0⟩, ⟨0, 0, .Linear, .ofDouble 0⟩⟩
      = [(0, 0), (10, 1), (20, 2), (30, 3), (40, 4),
         (50, 5), (60, 6), (70, 7), (80, 8), (90, 9)] := hloop
  have hdegA : iterationFunc 10 (fun value => value.as_double)
      ⟨⟨0, 0, .Linear, .ofDouble 0⟩, ⟨0, 0, .Linear, .ofDouble 0⟩,
       ⟨0, 0, .Linear, .ofDouble 0⟩, ⟨0, 0, .Linear, .ofDouble 0⟩⟩ = [] :=
    iterationFunc_degenerate rfl
  have hdegB : iterationFunc 10 (fun value => value.as_double)
      ⟨⟨0, 100, .Linear, .ofDouble 10⟩, ⟨0, 0, .Linear, .ofDouble 0⟩,
       ⟨0, 0, .Linear, .ofDouble 0⟩, ⟨0, 0, .Linear, .ofDouble 0⟩⟩ = [] :=
    iterationFunc_degenerate rfl
  have hdegC : iterationFunc 10 (fun value => value.as_double)
      ⟨⟨0, 100, .Linear, .ofDouble 10⟩, ⟨0, 100, .Linear, .ofDouble 10⟩,
       ⟨0, 100, .Linear, .ofDouble 10⟩, ⟨0, 0, .Linear, .ofDouble 0⟩⟩ = [] :=
    iterationFunc_degenerate rfl
  have hchan : (processChannelAsDouble
      [((0 : Int), [((0 : ℝ), (⟨0, 0, .Linear, .ofDouble 0⟩ : KeyFrame)),
                    ((100 : ℝ), (⟨0, 100, .Linear, .ofDouble 10⟩ : KeyFrame))])]
      0 10).2
      = [(0, 0), (10, 1), (20, 2), (30, 3), (40, 4),
         (50, 5), (60, 6), (70, 7), (80, 8), (90, 9)] := by
    simp [processChannelAsDouble, processChannel, alFind?, allWindows, mainWindows,
      finalWindow, Window.shiftIn, Window.shiftKeep, emitAll, hmain, hdegA, hdegB, hdegC]
  have hi0 : ((⌊(0 : ℝ) / 10⌋).toNat) = 0 := by norm_num <;> rfl
  have hi1 : ((⌊(10 : ℝ) / 10⌋).toNat) = 1 := by norm_num <;> rfl
  have hi2 : ((⌊(20 : ℝ) / 10⌋).toNat) = 2 := by norm_num <;> rfl
  have hi3 : ((⌊(30 : ℝ) / 10⌋).toNat) = 3 := by norm_num <;> rfl
  have hi4 : ((⌊(40 : ℝ) / 10⌋).toNat) = 4 := by norm_num <;> rfl
  have hi5 : ((⌊(50 : ℝ) / 10⌋).toNat) = 5 := by norm_num <;> rfl
  have hi6 : ((⌊(60 : ℝ) / 10⌋).toNat) = 6 := by norm_num <;> rfl
  have hi7 : ((⌊(70 : ℝ) / 10⌋).toNat) = 7 := by norm_num <;> rfl
  have hi8 : ((⌊(80 : ℝ) / 10⌋).toNat) = 8 := by norm_num <;> rfl
  have hi9 : ((⌊(90 : ℝ) / 10⌋).toNat) = 9 := by norm_num <;> rfl
  have hplace : placeEmissions VariantNumeric.ofDouble 10 10 0
      [(0, 0), (10, 1), (20, 2), (30, 3), (40, 4),
       (50, 5), (60, 6), (70, 7), (80, 8), (90, 9)]
      (List.replicate 10 [])
      = [[(0, .ofDouble 0)], [(0, .ofDouble 1)], [(0, .ofDouble 2)], [(0, .ofDouble 3)],
         [(0, .ofDouble 4)], [(0, .ofDouble 5)], [(0, .ofDouble 6)], [(0, .ofDouble 7)],
         [(0, .ofDouble 8)], [(0, .ofDouble 9)]] := by
    rw [show List.replicate 10 ([] : ChannelValueMap)
        = [[], [], [], [], [], [], [], [], [], []] from rfl]
    simp [placeEmissions, hi0, hi1, hi2, hi3, hi4, hi5, hi6, hi7, hi8, hi9, alEmplace]
  have hnum : (⌊((100 : ℝ) - 0) / 10⌋).toNat = 10 := by norm_num <;> rfl
  simp only [processAllChannels, hnum, channelsFold, VariantNumeric.get_type, hchan,
    hplace, deliver]
  norm_num

/-- C6: for every segment whose start (`lastKeyFrames[2]`) and end
(`lastKeyFrames[1]`) keyframes have equal times, the per-segment loop executes
zero times: no value is emitted for that segment (so `alpha`, whose denominator
would be zero, is never computed). -/
theorem claim_C6_segment_with_equal_times_emits_nothing
    (iterationMS : ℝ) (extractFn : VariantNumeric → ℝ) (w : Window)
    (h : w.s1.mTimeMS = w.s2.mTimeMS) :
    iterationFunc iterationMS extractFn w = [] :=
  iterationFunc_degenerate h

theorem claim_C6_witness :
    iterationFunc 1 VariantNumeric.as_double ⟨default, default, default, default⟩ = [] :=
  claim_C6_segment_with_equal_times_emits_nothing 1 VariantNumeric.as_double _ rfl

/-- C7: the channel scan returns `false` (no data) exactly when the channel is
absent from the animation or its timeline is empty, and in that case no
emission is produced; in every other case it returns `true`. -/
theorem claim_C7_scan_result_iff_no_data
    (animation : Animation) (channel : Int) (iterationMS : ℝ)
    (extractFn : VariantNumeric → ℝ) :
    ((processChannel animation channel iterationMS extractFn).1 = false ↔
      alFind? channel animation = none ∨ alFind? channel animation = some []) ∧
    ((processChannel animation channel iterationMS extractFn).1 = false →
      (processChannel animation channel iterationMS extractFn).2 = []) := by
  unfold processChannel
  rcases h : alFind? channel animation with _ | tl
  · simp
  · rcases tl with _ | ⟨e, rest⟩ <;> simp

theorem claim_C7_witness :
    (processChannel ([] : Animation) 0 1 VariantNumeric.as_double).2 = [] := by
  have h := claim_C7_scan_result_iff_no_data ([] : Animation) 0 1 VariantNumeric.as_double
  exact h.2 (h.1.mpr (Or.inl rfl))

/-- C8: Distort pass-through and extremes: (1) if channel 0 or channel 1 is
absent from the snapshot, or the channel-0 dry/wet value is `0.0`, the sample
is returned unchanged and no error is raised; (2) `dry_wet = 1` with
`cutoff = 0` forces any sample to `0`; (3) a whole-buffer application all of
whose snapshots satisfy a pass-through condition (in particular dry/wet
constantly zero) leaves the buffer unchanged regardless of cutoff. -/
theorem claim_C8_distort_passthrough_and_extremes :
    (∀ (input : Nat) (m : ChannelValueMap), input < 65536 →
      (alFind? 0 m = none ∨ alFind? 1 m = none ∨ alFind? 0 m = some (.ofDouble 0)) →
      transform_distort input m = input)
    ∧ (∀ (input : Nat) (m : ChannelValueMap),
        alFind? 0 m = some (.ofDouble 1) → alFind? 1 m = some (.ofDouble 0) →
        transform_distort input m = 0)
    ∧ (∀ (buffer : List Nat) (animation : Animation),
        (∀ x ∈ buffer, x < 65536) →
        (∀ p ∈ processAllChannels animation SAMPLE_MS 0 (get_buffer_duration_ms buffer),
          alFind? 0 p.2 = none ∨ alFind? 1 p.2 = none ∨
            alFind? 0 p.2 = some (.ofDouble 0)) →
        apply_effect buffer animation .DISTORT = buffer) := by
  refine ⟨?_, ?_, ?_⟩
  · intro input m hin hcond
    rw [transform_distort_passthrough input m hcond, toUInt16_toInt16 input hin]
  · intro input m h0 h1
    unfold transform_distort
    rw [h0, h1]
    simp only [VariantNumeric.as_double]
    rw [if_neg (by norm_num)]
    have hct : castDoubleToInt16 (AMP_MAX * 0) = 0 := by
      unfold castDoubleToInt16 AMP_MAX
      norm_num
    rw [hct]
    have hclip : (if (if (0 : Int) < toInt16 input then (0 : Int) else toInt16 input) < -0
        then -0 else (if (0 : Int) < toInt16 input then (0 : Int) else toInt16 input))
        = 0 := by
      split_ifs <;> omega
    rw [hclip]
    have hfad : fader (toInt16 input) 0 1 = 0 := by
      unfold fader
      have harg : (((0 : Int) : ℝ) - ((toInt16 input : Int) : ℝ)) * 1
          + ((toInt16 input : Int) : ℝ) = 0 := by push_cast; ring
      rw [harg]
      unfold castDoubleToInt16
      norm_num
    rw [hfad]
    rfl
  · intro buffer animation hb hcond
    simp only [apply_effect]
    exact foldl_applyTick_id _ buffer hb hcond

theorem claim_C8_witness :
    transform_distort 20000 [] = 20000 ∧
    transform_distort 20000 [(0, .ofDouble 1), (1, .ofDouble 0)] = 0 ∧
    apply_effect [20000, 20000] [] .DISTORT = [20000, 20000] := by
  obtain ⟨h1, h2, h3⟩ := claim_C8_distort_passthrough_and_extremes
  refine ⟨h1 20000 [] (by norm_num) (Or.inl rfl), h2 20000 _ rfl rfl,
    h3 [20000, 20000] [] ?_ ?_⟩
  · intro x hx
    simp at hx
    omega
  · intro p hp
    simp only [processAllChannels, channelsFold] at hp
    left
    rw [List.eq_of_mem_replicate (deliver_mem _ 0 _ p hp)]
    rfl

/-- The end-to-end Distort scenario of the spec: both modulation channels hold
a single keyframe, so they emit nothing, every snapshot is empty, and the
effect passes every sample through unchanged. -/
theorem apply_effect_distort_scenario :
    apply_effect (List.replicate 8 20000)
      [((0 : Int), [((0 : ℝ), (⟨0, 0, .Linear, .ofDouble 1⟩ : KeyFrame))]),
       ((1 : Int), [((0 : ℝ), (⟨1, 0, .Linear, .ofDouble (1 / 4)⟩ : KeyFrame))])]
      .DISTORT = List.replicate 8 20000 := by
  simp only [apply_effect]
  apply foldl_applyTick_id
  · intro x hx
    rw [List.eq_of_mem_replicate hx]
    norm_num
  · intro p hp
    left
    simp only [processAllChannels] at hp
    have h2 := deliver_mem _ 0 _ p hp
    exact channelsFold_preserves_absent
      [((0 : Int), [((0 : ℝ), (⟨0, 0, .Linear, .ofDouble 1⟩ : KeyFrame))]),
       ((1 : Int), [((0 : ℝ), (⟨1, 0, .Linear, .ofDouble (1 / 4)⟩ : KeyFrame))])]
      0 0 ⟨0, 0, .Linear, .ofDouble 1⟩ rfl _ _ _ _
      (fun s hs => by rw [List.eq_of_mem_replicate hs]; rfl) _ h2

/-- C3 (counterexample): in the spec's end-to-end scenario — 4 stereo frames
all `20000`, channel 0 = {(0, 1.0)}, channel 1 = {(0, 0.25)} — applying
Distort does NOT yield `8192` everywhere: the single-keyframe channels are
absent from every snapshot, so the buffer is completely unchanged. -/
theorem claim_C3_counterexample :
    apply_effect (List.replicate 8 20000)
      [((0 : Int), [((0 : ℝ), (⟨0, 0, .Linear, .ofDouble 1⟩ : KeyFrame))]),
       ((1 : Int), [((0 : ℝ), (⟨1, 0, .Linear, .ofDouble (1 / 4)⟩ : KeyFrame))])]
      .DISTORT ≠ List.replicate 8 8192 := by
  rw [apply_effect_distort_scenario]
  decide

/-- C3 (amended): the clipping threshold uses TRUNCATION, not rounding:
`cutoff_top = trunc(32767 * cutoff)`, so with both channels present,
`dry_wet = 1` and `cutoff = 0.25` a sample of `20000` is clipped to
`trunc(8191.75) = 8191` (not `round = 8192`); and in the spec's end-to-end
scenario the single-keyframe channels emit no snapshot entries, so all 8
samples remain `20000`. -/
theorem claim_C3_amended_truncated_threshold_and_unchanged_buffer :
    transform_distort 20000 [((0 : Int), .ofDouble 1), ((1 : Int), .ofDouble (1 / 4))]
        = 8191 ∧
    apply_effect (List.replicate 8 20000)
      [((0 : Int), [((0 : ℝ), (⟨0, 0, .Linear, .ofDouble 1⟩ : KeyFrame))]),
       ((1 : Int), [((0 : ℝ), (⟨1, 0, .Linear, .ofDouble (1 / 4)⟩ : KeyFrame))])]
      .DISTORT = List.replicate 8 20000 := by
  constructor
  · have hct : castDoubleToInt16 (AMP_MAX * (1 / 4)) = 8191 := by
      unfold castDoubleToInt16 AMP_MAX
      rw [if_pos (by norm_num), Int.floor_eq_iff]
      norm_num
    have hfad : fader 20000 8191 1 = 8191 := by
      unfold fader
      have harg : (((8191 : Int) : ℝ) - ((20000 : Int) : ℝ)) * 1 + ((20000 : Int) : ℝ)
          = ((8191 : Int) : ℝ) := by push_cast; ring
      rw [harg]
      unfold castDoubleToInt16
      rw [if_pos (by positivity), Int.floor_intCast]
    have hi16 : toInt16 20000 = 20000 := by decide
    unfold transform_distort
    rw [show alFind? (0 : Int)
        [((0 : Int), VariantNumeric.ofDouble 1), ((1 : Int), VariantNumeric.ofDouble (1 / 4))]
        = some (VariantNumeric.ofDouble 1) from rfl,
      show alFind? (1 : Int)
        [((0 : Int), VariantNumeric.ofDouble 1), ((1 : Int), VariantNumeric.ofDouble (1 / 4))]
        = some (VariantNumeric.ofDouble (1 / 4)) from rfl]
    simp only [VariantNumeric.as_double]
    rw [if_neg (by norm_num : ¬(1 : ℝ) = 0), hct, hi16,
      if_pos (by norm_num : (8191 : Int) < 20000),
      if_neg (by norm_num : ¬(8191 : Int) < -8191), hfad]
    rfl
  · exact apply_effect_distort_scenario

/-- C2 (counterexample): inserting a second keyframe at an existing
`(channel, time)` does NOT overwrite: after inserting value `1.0` and then
value `2.0` at `(0, 0)`, the single stored entry still holds the FIRST value
(`std::map::emplace` keeps the existing entry). -/
theorem claim_C2_counterexample :
    (alFind? 0 (insertKeyFrame (insertKeyFrame ([] : Animation)
        ⟨0, 0, .Linear, .ofDouble 1⟩) ⟨0, 0, .Linear, .ofDouble 2⟩)).map
      (List.map (fun e => e.2.mValue)) = some [VariantNumeric.ofDouble 1] ∧
    VariantNumeric.ofDouble 1 ≠ VariantNumeric.ofDouble 2 := by
  constructor
  · simp [insertKeyFrame, alFind?, alEmplace, alUpdate, lt_irrefl]
  · intro h
    injection h with h'
    norm_num at h'

/-- C2 (amended): inserting a keyframe at an existing `(channel, time)` keeps
the previously stored keyframe: for a channel that was previously absent, after
two insertions at the same channel and time the timeline holds exactly one
entry at that time, and it is the keyframe of the FIRST insertion. -/
theorem claim_C2_amended_insert_keeps_first (a : Animation) (kf1 kf2 : KeyFrame)
    (hc : kf2.mChannel = kf1.mChannel) (ht : kf2.mTimeMS = kf1.mTimeMS)
    (hnone : alFind? kf1.mChannel a = none) :
    alFind? kf1.mChannel (insertKeyFrame (insertKeyFrame a kf1) kf2)
      = some [(kf1.mTimeMS, kf1)] := by
  have h1 : insertKeyFrame a kf1
      = alEmplace kf1.mChannel [(kf1.mTimeMS, kf1)] a := by
    unfold insertKeyFrame
    rw [hnone]
  have hfind1 : alFind? kf1.mChannel (insertKeyFrame a kf1)
      = some [(kf1.mTimeMS, kf1)] := by
    rw [h1]
    exact alFind?_alEmplace_of_not_found _ _ _ hnone
  have h2 : insertKeyFrame (insertKeyFrame a kf1) kf2
      = alUpdate kf1.mChannel (alEmplace kf1.mTimeMS kf2) (insertKeyFrame a kf1) := by
    rw [insertKeyFrame, hc, ht, hfind1]
  rw [h2, alFind?_alUpdate_self, hfind1, Option.map_some', alEmplace_head_eq]

/-- C1 (counterexample): a channel with exactly one keyframe at `t = 0` (value
`5.0`), sampled at tick 10 over `[0, 20)`, is ABSENT from every snapshot — not
present with its clamped value: with one keyframe every segment is empty and
the scan emits nothing. -/
theorem claim_C1_counterexample :
    (processAllChannels
        [((0 : Int), [((0 : ℝ), (⟨0, 0, .Linear, .ofDouble 5⟩ : KeyFrame))])]
        10 0 20).map (fun p => alFind? (0 : Int) p.2) = [none, none] := by
  rw [processAllChannels_single_example]
  rfl

/-- C1 (amended): for every Animation containing a channel whose timeline
holds exactly one keyframe, sampling over any window with any tick interval
produces snapshots from which that channel is ABSENT at every tick (a
single-keyframe timeline emits no values, since its only segment is empty). -/
theorem claim_C1_amended_single_keyframe_channel_absent
    (animation : Animation) (c : Int) (t : ℝ) (kf : KeyFrame)
    (iterationMS startMS endMS : ℝ)
    (hfind : alFind? c animation = some [(t, kf)]) :
    ∀ p ∈ processAllChannels animation iterationMS startMS endMS,
      alFind? c p.2 = none := by
  intro p hp
  simp only [processAllChannels] at hp
  have h2 := deliver_mem iterationMS 0 _ p hp
  refine channelsFold_preserves_absent animation c t kf hfind iterationMS _ animation _ ?_ _ h2
  intro s hs
  rw [List.eq_of_mem_replicate hs]
  rfl

theorem claim_C1_amended_witness :
    alFind? (0 : Int) ((processAllChannels
        [((0 : Int), [((0 : ℝ), (⟨0, 0, .Linear, .ofDouble 5⟩ : KeyFrame))])]
        10 0 20).getD 0 (0, [(0, .ofDouble 5)])).2 = none := by
  apply claim_C1_amended_single_keyframe_channel_absent
    [((0 : Int), [((0 : ℝ), (⟨0, 0, .Linear, .ofDouble 5⟩ : KeyFrame))])]
    0 0 ⟨0, 0, .Linear, .ofDouble 5⟩ 10 0 20 rfl
  rw [processAllChannels_single_example]
  simp

theorem claim_C2_amended_witness :
    alFind? 0 (insertKeyFrame (insertKeyFrame ([] : Animation)
        ⟨0, 5, .Linear, .ofDouble 1⟩) ⟨0, 5, .Cosine, .ofDouble 2⟩)
      = some [(5, ⟨0, 5, .Linear, .ofDouble 1⟩)] :=
  claim_C2_amended_insert_keeps_first [] ⟨0, 5, .Linear, .ofDouble 1⟩
    ⟨0, 5, .Cosine, .ofDouble 2⟩ rfl rfl rfl

end
